import Mathlib

/-!
# Verification of the repository ingestion and selection pipeline

Shallow embedding of the `POST /api/github` route handler: the repository
reference parser, the file classifier, the budgeted size-ascending selector,
the batched content fetcher and the content normalizer, together with the
terminal error handling of the route.

Machine integers of the source are modelled as `Nat` (all quantities involved
are small non-negative counts and byte sizes; no arithmetic in the route can
overflow any relevant bound). JavaScript string primitives (`split`, `trim`,
`replace` of an anchored literal pattern, `toLowerCase`, `endsWith`) are
modelled by structurally recursive functions over `List Char` so that every
definition evaluates inside the kernel. JavaScript falsy checks on optional
strings and numbers are modelled explicitly. Network effects are modelled by
passing the responses of the three upstream call shapes (repository metadata,
recursive tree listing, per-file content) as explicit oracle values, with a
thrown exception represented by an `Except.error` carrying the error message;
the handler additionally returns the number of network calls it performed.
-/

/-- Budget constant: maximum size of a single fetched file (bytes). -/
def MAX_FILE_SIZE : Nat := 100000

/-- Budget constant: maximum total size of fetched content (bytes). -/
def MAX_TOTAL_SIZE : Nat := 500000

/-- Budget constant: maximum number of files to fetch content for. -/
def MAX_FILES : Nat := 50

/-- Content-fetch concurrency width: files are fetched in groups of this size. -/
def BATCH_SIZE : Nat := 10

/-- The allow-list of code file extensions (`CODE_EXTENSIONS` in the source). -/
def CODE_EXTENSIONS : List String :=
  [".js", ".jsx", ".ts", ".tsx", ".mjs", ".cjs",
   ".py", ".pyw",
   ".java", ".kt", ".kts", ".scala",
   ".go",
   ".rs",
   ".c", ".cpp", ".cc", ".cxx", ".h", ".hpp",
   ".cs",
   ".rb",
   ".php",
   ".swift",
   ".dart",
   ".vue", ".svelte",
   ".sol",
   ".r", ".R",
   ".lua",
   ".sh", ".bash", ".zsh",
   ".sql",
   ".graphql", ".gql",
   ".yml", ".yaml",
   ".json",
   ".xml",
   ".toml",
   ".cfg", ".ini", ".conf",
   ".md", ".mdx",
   ".html", ".css", ".scss", ".sass", ".less",
   ".dockerfile",
   ".tf",
   ".prisma",
   ".proto"]

/-- Directory names whose whole subtree is skipped (`SKIP_DIRS` in the source). -/
def SKIP_DIRS : List String :=
  ["node_modules", ".git", "dist", "build", "out", ".next",
   "__pycache__", ".cache", "vendor", "target", "bin", "obj",
   ".idea", ".vscode", "coverage", ".nyc_output", ".tox",
   "venv", ".venv", "env", ".env", "eggs", ".eggs"]

/-- Exact file names that are skipped (`SKIP_FILES` in the source). -/
def SKIP_FILES : List String :=
  ["package-lock.json", "yarn.lock", "pnpm-lock.yaml",
   "composer.lock", "Gemfile.lock", "Cargo.lock",
   "go.sum", "poetry.lock", "Pipfile.lock"]

/-- Auxiliary for `splitOnChar`: accumulates the current segment (reversed). -/
def splitOnCharAux (sep : Char) : List Char → List Char → List (List Char)
  | [], acc => [acc.reverse]
  | c :: rest, acc =>
    if c = sep then acc.reverse :: splitOnCharAux sep rest []
    else splitOnCharAux sep rest (c :: acc)

/-- JavaScript `s.split(sep)` for a one-character separator: splits into the
(possibly empty) segments between occurrences of `sep`. -/
def splitOnChar (sep : Char) (s : List Char) : List (List Char) :=
  splitOnCharAux sep s []

/-- JavaScript `s.trim()`: strips leading and trailing whitespace. -/
def trimChars (s : List Char) : List Char :=
  ((s.dropWhile Char.isWhitespace).reverse.dropWhile Char.isWhitespace).reverse

/-- Whether `l` ends with the character sequence `suffix`. -/
def charsEndWith (suffix l : List Char) : Bool :=
  l.drop (l.length - suffix.length) == suffix && suffix.length ≤ l.length

/-- JavaScript `s.toLowerCase()` (on the ASCII fragment the route exercises). -/
def toLowerChars (s : List Char) : List Char :=
  s.map Char.toLower

/-- One node of the recursive tree listing returned by the hosting service:
`{path, size, type}`. The `size` field may be absent in the JSON, hence
`Option Nat`. -/
structure TreeEntry where
  path : String
  size : Option Nat
  type : String
deriving DecidableEq

/-- JavaScript `file.size || 0`: an absent (or zero) size counts as `0`. -/
def sizeOrZero (e : TreeEntry) : Nat :=
  match e.size with
  | none => 0
  | some n => n

/-- The classifier `shouldIncludeFile` of the source, verbatim: a path is
rejected when a non-final segment is a skipped directory, when its file name
is a skipped file, or when the file name has no extension; otherwise
`Dockerfile` and `Makefile` are accepted specially and every other name is
accepted exactly when its lower-cased extension is in `CODE_EXTENSIONS`. -/
def shouldIncludeFile (path : String) : Bool :=
  let parts := splitOnChar '/' path.toList
  if parts.dropLast.any (fun part => SKIP_DIRS.any (fun d => d.toList == part)) then false
  else
    let fileName := parts.getLastD []
    if SKIP_FILES.any (fun f => f.toList == fileName) then false
    else
      let ext := if fileName.any (fun c => c = '.')
        then '.' :: toLowerChars ((splitOnChar '.' fileName).getLastD [])
        else []
      if ext.isEmpty then false
      else if fileName == "Dockerfile".toList || fileName == "Makefile".toList then true
      else CODE_EXTENSIONS.any (fun e => e.toList == ext)

/-- The result of `parseGitHubUrl`: `{owner, repo, branch?}`. -/
structure RepoRef where
  owner : String
  repo : String
  branch : Option String
deriving DecidableEq

/-- A character admitted by the shorthand regex character class `[a-zA-Z0-9_.-]`. -/
def isShorthandChar (c : Char) : Bool :=
  c.isAlphanum || c = '_' || c = '.' || c = '-'

/-- The shorthand regex of the source, `^[a-zA-Z0-9_.-]+\/[a-zA-Z0-9_.-]+$`:
exactly one slash separating two nonempty runs of admitted characters. -/
def isShorthand (s : List Char) : Bool :=
  match splitOnChar '/' s with
  | [a, b] => !a.isEmpty && !b.isEmpty && a.all isShorthandChar && b.all isShorthandChar
  | _ => false

/-- Modelled platform behavior of the WHATWG `new URL` constructor, restricted
to the `scheme://host/path` fragment the route exercises (no port, userinfo,
query or fragment components, which no locator form of the contract uses):
yields the lower-cased hostname and the raw pathname, or `none` where the
constructor would throw (no `://`, empty or non-alphabetic scheme, empty
host). -/
def parseURL (s : List Char) : Option (List Char × List Char) :=
  let scheme := s.takeWhile (fun c => c ≠ ':')
  match s.dropWhile (fun c => c ≠ ':') with
  | ':' :: '/' :: '/' :: after =>
    if scheme.isEmpty || !scheme.all Char.isAlpha then none
    else
      let host := after.takeWhile (fun c => c ≠ '/')
      let pathname := after.dropWhile (fun c => c ≠ '/')
      if host.isEmpty then none else some (toLowerChars host, pathname)
  | _ => none

/-- Models the replace call stripping one trailing `.git` suffix. -/
def stripDotGit (s : List Char) : List Char :=
  if charsEndWith ".git".toList s then s.dropLast.dropLast.dropLast.dropLast else s

/-- Models the replace call stripping one trailing slash. -/
def stripTrailingSlash (s : List Char) : List Char :=
  if charsEndWith "/".toList s then s.dropLast else s

/-- The body of `parseGitHubUrl` after the input has been cleaned: first the
shorthand regex, then URL parsing with the hostname check, path segmentation
and the `/tree/<branch>` suffix. -/
def parseCleaned (cleaned : List Char) : Option RepoRef :=
  if isShorthand cleaned then
    match splitOnChar '/' cleaned with
    | [owner, repo] => some ⟨owner.asString, repo.asString, none⟩
    | _ => none
  else
    match parseURL cleaned with
    | none => none
    | some (host, pathname) =>
      if host ≠ "github.com".toList then none
      else
        match (splitOnChar '/' pathname).filter (fun x => !x.isEmpty) with
        | owner :: repo :: rest =>
          let branch : Option String :=
            match rest with
            | t :: b :: _ => if t = "tree".toList && !b.isEmpty then some b.asString else none
            | _ => none
          some ⟨owner.asString, repo.asString, branch⟩
        | _ => none

/-- The function `parseGitHubUrl` of the source: trim, strip one trailing `.git`, strip one
trailing slash, then match the cleaned string against the three locator forms. -/
def parseGitHubUrl (url : String) : Option RepoRef :=
  parseCleaned (stripTrailingSlash (stripDotGit (trimChars url.toList)))

/-- The extension-to-language lookup table (`langMap` in the source). -/
def langMap : List (String × String) :=
  [(".js", "JavaScript"), (".jsx", "JavaScript"), (".mjs", "JavaScript"), (".cjs", "JavaScript"),
   (".ts", "TypeScript"), (".tsx", "TypeScript"),
   (".py", "Python"), (".pyw", "Python"),
   (".java", "Java"), (".kt", "Kotlin"), (".kts", "Kotlin"), (".scala", "Scala"),
   (".go", "Go"),
   (".rs", "Rust"),
   (".c", "C"), (".h", "C"), (".cpp", "C++"), (".cc", "C++"), (".cxx", "C++"), (".hpp", "C++"),
   (".cs", "C#"),
   (".rb", "Ruby"),
   (".php", "PHP"),
   (".swift", "Swift"),
   (".dart", "Dart"),
   (".vue", "Vue"), (".svelte", "Svelte"),
   (".sol", "Solidity"),
   (".r", "R"), (".R", "R"),
   (".lua", "Lua"),
   (".sh", "Shell"), (".bash", "Shell"), (".zsh", "Shell"),
   (".sql", "SQL"),
   (".html", "HTML"), (".css", "CSS"), (".scss", "SCSS"), (".sass", "Sass"), (".less", "Less"),
   (".json", "JSON"), (".yml", "YAML"), (".yaml", "YAML"), (".toml", "TOML"),
   (".md", "Markdown"), (".mdx", "MDX"),
   (".graphql", "GraphQL"), (".gql", "GraphQL"),
   (".proto", "Protocol Buffers"),
   (".prisma", "Prisma"),
   (".tf", "Terraform"),
   (".xml", "XML")]

/-- The function `getLanguageFromPath` of the source: look the lower-cased final extension
up in `langMap`, defaulting to `"Unknown"`. -/
def getLanguageFromPath (path : String) : String :=
  let ext := '.' :: toLowerChars ((splitOnChar '.' path.toList).getLastD [])
  match langMap.find? (fun p => p.fst.toList == ext) with
  | some p => p.snd
  | none => "Unknown"

/-- One step of the stable ascending sort: insert `e` before the first element
of strictly larger-or-equal... (strictly: before the first element whose size
is not smaller), so that among equal sizes the earlier-listed element stays
first. Models the stable `Array.prototype.sort` with the numeric comparator
`(a.size || 0) - (b.size || 0)`. -/
def orderedInsertSize (e : TreeEntry) : List TreeEntry → List TreeEntry
  | [] => [e]
  | b :: l => if sizeOrZero e ≤ sizeOrZero b then e :: b :: l
              else b :: orderedInsertSize e l

/-- The stable size-ascending sort used on the eligible files
(`allFiles.sort((a, b) => (a.size || 0) - (b.size || 0))`). A stable sorted
permutation under a total preorder is unique, so insertion sort is an exact
model of the engine's stable sort. -/
def sortBySize : List TreeEntry → List TreeEntry
  | [] => []
  | a :: l => orderedInsertSize a (sortBySize l)

/-- The selection loop of the source: walk the sorted sequence, breaking when
the count budget is already full, skipping (continue) a file larger than
`mfs`, breaking when admitting the file would push the running total past
`mts`, and otherwise admitting the file. -/
def selectLoop (mf mfs mts : Nat) (acc : List TreeEntry) (total : Nat) :
    List TreeEntry → List TreeEntry
  | [] => acc
  | f :: rest =>
    if mf ≤ acc.length then acc
    else if mfs < sizeOrZero f then selectLoop mf mfs mts acc total rest
    else if mts < total + sizeOrZero f then acc
    else selectLoop mf mfs mts (acc ++ [f]) (total + sizeOrZero f) rest

/-- The budgeted selector with explicit budgets: stable sort by size ascending,
then the greedy admission walk. -/
def selectFilesWith (mf mfs mts : Nat) (files : List TreeEntry) : List TreeEntry :=
  selectLoop mf mfs mts [] 0 (sortBySize files)

/-- The budgeted selector as instantiated by the route (`filesToFetch`):
budgets `MAX_FILES`, `MAX_FILE_SIZE`, `MAX_TOTAL_SIZE`. -/
def selectFiles (files : List TreeEntry) : List TreeEntry :=
  selectFilesWith MAX_FILES MAX_FILE_SIZE MAX_TOTAL_SIZE files

/-- Sum of the (`|| 0`-defaulted) sizes of a list of tree entries. -/
def sumSizes (files : List TreeEntry) : Nat :=
  (files.map sizeOrZero).sum

/-- The final output unit: `{path, content, size, language}`. -/
structure FileRecord where
  path : String
  content : String
  size : Nat
  language : String
deriving DecidableEq

/-- JavaScript `file.size || decoded.length`: the record's size falls back to
the decoded content's length when the tree-reported size is absent or zero. -/
def jsOrNat (size : Option Nat) (fallback : Nat) : Nat :=
  match size with
  | none => fallback
  | some n => if n = 0 then fallback else n

/-- Outcome of one per-file content fetch, as seen by the route: either the
fetch (or its JSON decoding) threw, or it returned a response with a success
flag, a status, an optional `encoding` marker and an optional content payload.
The payload is recorded post-decode: base64 transport decoding is an injective
platform operation, so `content = some d` models a truthy (nonempty) `content`
field whose decoded text is `d`, and `content = none` models an absent or
falsy one. -/
inductive ContentOutcome where
  | thrown
  | resp (ok : Bool) (status : Nat) (encoding : Option String) (content : Option String)
deriving DecidableEq

/-- The per-file body of the batched fetch loop: any thrown error or
non-success status yields `none`; a response whose encoding marker is not
`base64` or whose content is missing yields `none`; decoded text containing a
null byte is classified binary and yields `none`; otherwise a `FileRecord` is
built with the decoded text and the size fallback. -/
def processFile (file : TreeEntry) (o : ContentOutcome) : Option FileRecord :=
  match o with
  | .thrown => none
  | .resp ok _ encoding content =>
    if !ok then none
    else
      match encoding, content with
      | some e, some d =>
        if e = "base64" then
          if d.toList.any (fun c => c = Char.ofNat 0) then none
          else some ⟨file.path, d, jsOrNat file.size d.toList.length, getLanguageFromPath file.path⟩
        else none
      | _, _ => none

/-- One batch (`batch.map(async file => ...)` under `Promise.all`): the
results stand in batch order, one slot per file, regardless of completion
timing. -/
def processBatch (oracle : String → ContentOutcome) (batch : List TreeEntry) :
    List (Option FileRecord) :=
  batch.map (fun f => processFile f (oracle f.path))

/-- The batched content fetch loop (`for (let i = 0; i < n; i += BATCH_SIZE)`):
each iteration takes the next `BATCH_SIZE` files, fetches them as one group,
drops the `null` results (`filter(Boolean)`) and appends the rest. -/
def fetchAll (oracle : String → ContentOutcome) (files : List TreeEntry) :
    List FileRecord :=
  (List.range ((files.length + (BATCH_SIZE - 1)) / BATCH_SIZE)).flatMap
    (fun k => ((processBatch oracle ((files.drop (k * BATCH_SIZE)).take BATCH_SIZE)).filterMap id))

/-- JavaScript `requestedBranch || parsed.branch`: an absent or empty explicit
branch falls back to the URL-embedded one. -/
def jsOrOpt (requested fallback : Option String) : Option String :=
  match requested with
  | none => fallback
  | some b => if b = "" then fallback else some b

/-- JavaScript falsy test on an optional string (`!repoUrl`, `!targetBranch`):
true when the value is absent or the empty string. -/
def isFalsyOpt (o : Option String) : Bool :=
  match o with
  | none => true
  | some s => s = ""

/-- JavaScript `repoData.default_branch || 'main'`. -/
def jsOrStr (o : Option String) (fallback : String) : String :=
  match o with
  | none => fallback
  | some s => if s = "" then fallback else s

/-- The request body `{ repoUrl, branch }`; either field may be absent. -/
structure ReqBody where
  repoUrl : Option String
  branch : Option String
deriving DecidableEq

/-- Response of the repository-metadata lookup, with the fields the route
reads: `ok`, `status`, `statusText` and the JSON's `default_branch`. -/
structure MetaResp where
  ok : Bool
  status : Nat
  statusText : String
  default_branch : Option String

/-- Response of the recursive tree listing, with the fields the route reads:
`ok`, `status`, `statusText` and the JSON's `tree` array (absent ⇒ `[]`). -/
structure TreeResp where
  ok : Bool
  status : Nat
  statusText : String
  tree : Option (List TreeEntry)

/-- The network environment of one run: the metadata response, the tree
response and the per-path content outcome. `Except.error msg` models a fetch
(or body read) that threw an `Error` with message `msg`. -/
structure Env where
  repoMeta : Except String MetaResp
  treeResp : Except String TreeResp
  content : String → ContentOutcome

/-- The JSON response of the route, together with its HTTP status. Fields that
an error response does not carry are `none`/`[]`. -/
structure ApiResponse where
  status : Nat
  success : Bool
  error : Option String
  owner : Option String
  repo : Option String
  branch : Option String
  files : List FileRecord
  totalFiles : Option Nat
  fetchedFiles : Option Nat
  truncatedFiles : Option Nat
  treeOut : List (String × Option Nat)
deriving DecidableEq

/-- An error response: `{ success: false, error }, { status }`. -/
def errResp (status : Nat) (msg : String) : ApiResponse :=
  ⟨status, false, some msg, none, none, none, [], none, none, none, []⟩

/-- The success response of the route: counts and the echoed (sorted) tree are
derived from the eligible list, the records from the fetch results. -/
def successResp (p : RepoRef) (targetBranch : String) (allFiles : List TreeEntry)
    (results : List FileRecord) : ApiResponse :=
  ⟨200, true, none, some p.owner, some p.repo, some targetBranch, results,
   some allFiles.length, some results.length, some (allFiles.length - results.length),
   allFiles.map (fun f => (f.path, f.size))⟩

/-- The route from the tree listing on: filter to eligible blobs, sort
(in place in the source, so the response's `tree` echoes the sorted order),
select under the budgets, fetch the contents in batches, and answer. The
second component counts network calls made so far plus the ones made here. -/
def afterBranch (env : Env) (p : RepoRef) (targetBranch : String) (calls : Nat) :
    ApiResponse × Nat :=
  match env.treeResp with
  | .error msg => (errResp 500 msg, calls + 1)
  | .ok t =>
    if !t.ok then
      (errResp t.status ("Failed to fetch repo tree: " ++ toString t.status ++ " " ++ t.statusText),
       calls + 1)
    else
      let allFiles := sortBySize ((t.tree.getD []).filter
        (fun item => item.type == "blob" && shouldIncludeFile item.path))
      let filesToFetch := selectLoop MAX_FILES MAX_FILE_SIZE MAX_TOTAL_SIZE [] 0 allFiles
      let results := fetchAll env.content filesToFetch
      (successResp p targetBranch allFiles results, calls + 1 + filesToFetch.length)

/-- The `POST` handler: read the body (a throw is caught as a 500), require
`repoUrl`, parse it (a parse failure is a 400 with no network call), resolve
the branch (metadata lookup only when no branch was supplied, with 404
special-cased and other non-success statuses passed through), then proceed to
the tree listing and content fetching. Returns the response and the number of
network calls performed. -/
def handlePOST (body : Except String ReqBody) (env : Env) : ApiResponse × Nat :=
  match body with
  | .error msg => (errResp 500 msg, 0)
  | .ok b =>
    if isFalsyOpt b.repoUrl then (errResp 400 "repoUrl is required", 0)
    else
      match parseGitHubUrl (b.repoUrl.getD "") with
      | none =>
        (errResp 400 "Invalid GitHub URL. Use format: https://github.com/owner/repo or owner/repo", 0)
      | some p =>
        let branch := jsOrOpt b.branch p.branch
        if isFalsyOpt branch then
          match env.repoMeta with
          | .error msg => (errResp 500 msg, 1)
          | .ok m =>
            if !m.ok then
              if m.status = 404 then
                (errResp 404 ("Repository " ++ p.owner ++ "/" ++ p.repo ++
                  " not found. Make sure it exists and is public."), 1)
              else
                (errResp m.status ("GitHub API error: " ++ toString m.status ++ " " ++ m.statusText), 1)
            else
              afterBranch env p (jsOrStr m.default_branch "main") 1
        else
          afterBranch env p (branch.getD "") 0

/-- Writing one fetch result into its position-indexed slot:
`List.set` leaves the list unchanged when the index is out of range. -/
def runSched (f : Nat → Option FileRecord) :
    List (Option FileRecord) → List Nat → List (Option FileRecord)
  | slots, [] => slots
  | slots, i :: rest => runSched f (slots.set i (f i)) rest

/-- One batch executed under an explicit completion schedule: the fetches of
the batch finish in the order listed by `sched`, each writing its result into
its own slot; the batch's result list is read off the slots in batch order,
exactly as `Promise.all` does. -/
def processBatchSched (oracle : String → ContentOutcome) (batch : List TreeEntry)
    (sched : List Nat) : List (Option FileRecord) :=
  runSched
    (fun i => match batch.get? i with
      | some file => processFile file (oracle file.path)
      | none => none)
    (List.replicate batch.length none) sched

/-- The batched fetch loop under explicit per-batch completion schedules. -/
def fetchAllSched (oracle : String → ContentOutcome) (files : List TreeEntry)
    (scheds : List (List Nat)) : List FileRecord :=
  (List.range ((files.length + (BATCH_SIZE - 1)) / BATCH_SIZE)).flatMap
    (fun k => (processBatchSched oracle ((files.drop (k * BATCH_SIZE)).take BATCH_SIZE)
      (scheds.getD k [])).filterMap id)

/-- A schedule list is valid for a run when, for every batch, every fetch of
the batch eventually completes (its index occurs in that batch's schedule). -/
def validScheds (files : List TreeEntry) (scheds : List (List Nat)) : Bool :=
  (List.range ((files.length + (BATCH_SIZE - 1)) / BATCH_SIZE)).all
    (fun k => (List.range ((files.drop (k * BATCH_SIZE)).take BATCH_SIZE).length).all
      (fun j => (scheds.getD k []).contains j))

/-- The comparison order of the selector's sort: size ascending. -/
def sizeLE (a b : TreeEntry) : Prop :=
  sizeOrZero a ≤ sizeOrZero b

/-- Scenario D environment: a tree of three eligible files where the content
fetch of the second returns a not-found status. -/
def envD : Env :=
  ⟨.error "unused",
   .ok ⟨true, 200, "OK", some [⟨"f1.py", some 10, "blob"⟩, ⟨"f2.py", some 20, "blob"⟩,
     ⟨"f3.py", some 30, "blob"⟩]⟩,
   fun pth => if pth = "f2.py" then .resp false 404 none none
              else .resp true 200 (some "base64") (some "x")⟩

/-- Environment for the parser scenarios: an empty (but successful) tree and
an unused metadata endpoint. -/
def envB : Env :=
  ⟨.error "unused", .ok ⟨true, 200, "OK", some []⟩, fun _ => .thrown⟩

theorem mem_orderedInsertSize (e x : TreeEntry) :
    ∀ l, x ∈ orderedInsertSize e l ↔ x = e ∨ x ∈ l
  | [] => by simp [orderedInsertSize]
  | b :: l => by
    by_cases h : sizeOrZero e ≤ sizeOrZero b
    · simp [orderedInsertSize, h]
    · simp only [orderedInsertSize, if_neg h, List.mem_cons,
        mem_orderedInsertSize e x l]
      tauto

theorem perm_orderedInsertSize (e : TreeEntry) :
    ∀ l, (orderedInsertSize e l).Perm (e :: l)
  | [] => List.Perm.refl _
  | b :: l => by
    by_cases h : sizeOrZero e ≤ sizeOrZero b
    · simp [orderedInsertSize, h]
    · simp only [orderedInsertSize, if_neg h]
      exact ((perm_orderedInsertSize e l).cons b).trans (List.Perm.swap e b l)

theorem pairwise_orderedInsertSize (e : TreeEntry) :
    ∀ l, l.Pairwise sizeLE → (orderedInsertSize e l).Pairwise sizeLE
  | [], _ => by simp [orderedInsertSize, sizeLE]
  | b :: l, hp => by
    rcases List.pairwise_cons.mp hp with ⟨hb, hl⟩
    by_cases h : sizeOrZero e ≤ sizeOrZero b
    · simp only [orderedInsertSize, if_pos h]
      refine List.pairwise_cons.mpr ⟨?_, hp⟩
      intro x hx
      rcases List.mem_cons.mp hx with rfl | hx
      · exact h
      · exact Nat.le_trans h (hb x hx)
    · simp only [orderedInsertSize, if_neg h]
      refine List.pairwise_cons.mpr ⟨?_, pairwise_orderedInsertSize e l hl⟩
      intro x hx
      rcases (mem_orderedInsertSize e x l).mp hx with rfl | hx
      · exact Nat.le_of_lt (Nat.lt_of_not_le h)
      · exact hb x hx

theorem filter_orderedInsertSize (e : TreeEntry) (k : Nat) :
    ∀ l, (orderedInsertSize e l).filter (fun x => sizeOrZero x == k)
      = if sizeOrZero e == k then e :: l.filter (fun x => sizeOrZero x == k)
        else l.filter (fun x => sizeOrZero x == k)
  | [] => by
    by_cases hek : (sizeOrZero e == k) = true <;>
      simp [orderedInsertSize, hek]
  | b :: l => by
    by_cases h : sizeOrZero e ≤ sizeOrZero b
    · by_cases hek : (sizeOrZero e == k) = true <;>
        simp [orderedInsertSize, if_pos h, List.filter_cons, hek]
    · by_cases hek : (sizeOrZero e == k) = true
      · have h2 : sizeOrZero b < sizeOrZero e := Nat.lt_of_not_le h
        have hek2 : sizeOrZero e = k := by simpa using hek
        have hbk : (sizeOrZero b == k) = false := by
          simp only [beq_eq_false_iff_ne, ne_eq]
          omega
        simp [orderedInsertSize, if_neg h, List.filter_cons, hek, hbk,
          filter_orderedInsertSize e k l]
      · simp only [Bool.not_eq_true] at hek
        simp [orderedInsertSize, if_neg h, List.filter_cons, hek,
          filter_orderedInsertSize e k l]

theorem sortBySize_pairwise : ∀ l, (sortBySize l).Pairwise sizeLE
  | [] => by simp [sortBySize]
  | a :: l => pairwise_orderedInsertSize a _ (sortBySize_pairwise l)

theorem sortBySize_perm : ∀ l, (sortBySize l).Perm l
  | [] => List.Perm.refl _
  | a :: l => (perm_orderedInsertSize a (sortBySize l)).trans ((sortBySize_perm l).cons a)

theorem sortBySize_filter (k : Nat) :
    ∀ l, (sortBySize l).filter (fun x => sizeOrZero x == k)
      = l.filter (fun x => sizeOrZero x == k)
  | [] => rfl
  | a :: l => by
    simp only [sortBySize, filter_orderedInsertSize a k (sortBySize l),
      sortBySize_filter k l, List.filter_cons]

theorem sumSizes_append_single (acc : List TreeEntry) (f : TreeEntry) :
    sumSizes (acc ++ [f]) = sumSizes acc + sizeOrZero f := by
  simp [sumSizes]

theorem selectLoop_inv (mf mfs mts : Nat) :
    ∀ (files acc : List TreeEntry) (total : Nat),
      acc.length ≤ mf → sumSizes acc = total → total ≤ mts →
      (∀ f ∈ acc, sizeOrZero f ≤ mfs) →
      (selectLoop mf mfs mts acc total files).length ≤ mf ∧
        sumSizes (selectLoop mf mfs mts acc total files) ≤ mts ∧
        ∀ f ∈ selectLoop mf mfs mts acc total files, sizeOrZero f ≤ mfs
  | [], acc, total, h1, h2, h3, h4 => by
    simpa [selectLoop] using ⟨h1, h2 ▸ h3, h4⟩
  | f :: rest, acc, total, h1, h2, h3, h4 => by
    rw [selectLoop]
    by_cases hc : mf ≤ acc.length
    · simpa [hc] using ⟨h1, h2 ▸ h3, h4⟩
    · by_cases hs : mfs < sizeOrZero f
      · simpa [hc, hs] using selectLoop_inv mf mfs mts rest acc total h1 h2 h3 h4
      · by_cases ht : mts < total + sizeOrZero f
        · simpa [hc, hs, ht] using ⟨h1, h2 ▸ h3, h4⟩
        · simp only [if_neg hc, if_neg hs, if_neg ht]
          refine selectLoop_inv mf mfs mts rest (acc ++ [f]) (total + sizeOrZero f)
            ?_ ?_ ?_ ?_
          · simp only [List.length_append, List.length_singleton]
            omega
          · rw [sumSizes_append_single, h2]
          · omega
          · intro g hg
            rcases List.mem_append.mp hg with hg | hg
            · exact h4 g hg
            · rcases List.mem_singleton.mp hg with rfl
              omega

/-- C1: for every eligible-file sequence, the set selected by the route's
budgeted selector satisfies all three budget bounds: at most `MAX_FILES` (50)
members, total (`|| 0`-defaulted) size at most `MAX_TOTAL_SIZE` (500000), and
every member's own size at most `MAX_FILE_SIZE` (100000). -/
theorem C1_budget_invariants (files : List TreeEntry) :
    (selectFiles files).length ≤ MAX_FILES ∧
      sumSizes (selectFiles files) ≤ MAX_TOTAL_SIZE ∧
      ∀ f ∈ selectFiles files, sizeOrZero f ≤ MAX_FILE_SIZE := by
  unfold selectFiles selectFilesWith
  exact selectLoop_inv MAX_FILES MAX_FILE_SIZE MAX_TOTAL_SIZE (sortBySize files) [] 0
    (by simp) (by simp [sumSizes]) (by simp) (by simp)

/-- Witness for C1 at a concrete eligible list: the selected entry's size
respects the per-file budget. -/
theorem C1_budget_invariants_witness :
    sizeOrZero ⟨"a.py", some 50, "blob"⟩ ≤ MAX_FILE_SIZE :=
  (C1_budget_invariants [⟨"a.py", some 50, "blob"⟩]).2.2 ⟨"a.py", some 50, "blob"⟩ (by decide)

/-- C2 (code bug): the classifier's special case for the extension-less names
`Dockerfile` and `Makefile` is dead code — the `if (!ext) return false` guard
runs first and both names contain no dot — so, contrary to the spec and to the
source's own comment ("Skip files without extensions (except Dockerfile)"),
the classifier rejects them, at the top level and in subdirectories alike,
while the `.dockerfile` extension remains accepted. -/
theorem C2_dockerfile_makefile_rejected :
    shouldIncludeFile "Dockerfile" = false ∧
      shouldIncludeFile "Makefile" = false ∧
      shouldIncludeFile "app/Dockerfile" = false ∧
      shouldIncludeFile "app.dockerfile" = true := by
  decide

/-- C3: the budgeted selector sorts by size ascending — the sorted list is
pairwise ordered by `sizeLE`, a permutation of the input, and stable (for each
size value the subsequence with that size is preserved) — then walks the
sorted list: an over-`mfs` file is skipped and the walk continues, a candidate
that would push the running total past `mts` (or arrives with the count budget
already full) terminates the walk. On the scenario list, `b/node_modules/c.js`
is excluded by the classifier before selection, the sorted order is
`[a.py, d.md]`, and with a total budget of 100 the selection is `[a.py]`. -/
theorem C3_selector_greedy :
    (∀ l, (sortBySize l).Pairwise sizeLE) ∧
    (∀ l, (sortBySize l).Perm l) ∧
    (∀ k l, (sortBySize l).filter (fun x => sizeOrZero x == k)
        = l.filter (fun x => sizeOrZero x == k)) ∧
    (∀ mf mfs mts acc total (f : TreeEntry) rest, acc.length < mf → mfs < sizeOrZero f →
        selectLoop mf mfs mts acc total (f :: rest) = selectLoop mf mfs mts acc total rest) ∧
    (∀ mf mfs mts acc total (f : TreeEntry) rest, acc.length < mf → sizeOrZero f ≤ mfs →
        mts < total + sizeOrZero f →
        selectLoop mf mfs mts acc total (f :: rest) = acc) ∧
    (∀ mf mfs mts acc total (f : TreeEntry) rest, mf ≤ acc.length →
        selectLoop mf mfs mts acc total (f :: rest) = acc) ∧
    ([(⟨"a.py", some 50, "blob"⟩ : TreeEntry), ⟨"b/node_modules/c.js", some 10, "blob"⟩,
        ⟨"d.md", some 5000, "blob"⟩].filter
        (fun f => f.type == "blob" && shouldIncludeFile f.path)
      = [⟨"a.py", some 50, "blob"⟩, ⟨"d.md", some 5000, "blob"⟩]) ∧
    (sortBySize [⟨"a.py", some 50, "blob"⟩, ⟨"d.md", some 5000, "blob"⟩]
      = [⟨"a.py", some 50, "blob"⟩, ⟨"d.md", some 5000, "blob"⟩]) ∧
    (selectFilesWith 50 100000 100 [⟨"a.py", some 50, "blob"⟩, ⟨"d.md", some 5000, "blob"⟩]
      = [⟨"a.py", some 50, "blob"⟩]) := by
  refine ⟨sortBySize_pairwise, sortBySize_perm, sortBySize_filter, ?_, ?_, ?_, ?_, ?_, ?_⟩
  · intro mf mfs mts acc total f rest hc hs
    simp [selectLoop, Nat.not_le_of_lt hc, hs]
  · intro mf mfs mts acc total f rest hc hs ht
    simp [selectLoop, Nat.not_le_of_lt hc, Nat.not_lt_of_le hs, ht]
  · intro mf mfs mts acc total f rest hc
    simp [selectLoop, hc]
  · decide
  · decide
  · decide

/-- Witness for C3 at concrete inputs: a 10-byte file is skipped under a
5-byte per-file budget and the walk continues; a candidate overflowing the
total budget stops the walk; a full count budget stops the walk. -/
theorem C3_selector_greedy_witness :
    selectLoop 5 5 100 [] 0 [(⟨"x", some 10, "blob"⟩ : TreeEntry), ⟨"y", some 1, "blob"⟩]
        = selectLoop 5 5 100 [] 0 [⟨"y", some 1, "blob"⟩] ∧
      selectLoop 5 100 7 [] 0 [(⟨"x", some 10, "blob"⟩ : TreeEntry), ⟨"y", some 1, "blob"⟩] = [] ∧
      selectLoop 0 100 100 [] 0 [(⟨"x", some 10, "blob"⟩ : TreeEntry)] = [] := by
  refine ⟨?_, ?_, ?_⟩
  · exact C3_selector_greedy.2.2.2.1 5 5 100 [] 0 ⟨"x", some 10, "blob"⟩
      [⟨"y", some 1, "blob"⟩] (by decide) (by decide)
  · exact C3_selector_greedy.2.2.2.2.1 5 100 7 [] 0 ⟨"x", some 10, "blob"⟩
      [⟨"y", some 1, "blob"⟩] (by decide) (by decide) (by decide)
  · exact C3_selector_greedy.2.2.2.2.2.1 0 100 100 [] 0 ⟨"x", some 10, "blob"⟩ []
      (by decide)

/-- C9: `parseGitHubUrl` first strips one trailing `.git` and then one
trailing slash from the trimmed input (the equation below is the route's
cleaning pipeline made explicit), so `.git`- and slash-suffixed locators parse
to the same reference as their stripped counterparts. -/
theorem C9_suffix_stripping :
    (∀ s, parseGitHubUrl s
        = parseCleaned (stripTrailingSlash (stripDotGit (trimChars s.toList)))) ∧
    parseGitHubUrl "https://github.com/owner/repo.git"
        = parseGitHubUrl "https://github.com/owner/repo" ∧
    parseGitHubUrl "owner/repo/" = parseGitHubUrl "owner/repo" ∧
    parseGitHubUrl "https://github.com/owner/repo.git" = some ⟨"owner", "repo", none⟩ ∧
    parseGitHubUrl "owner/repo/" = some ⟨"owner", "repo", none⟩ := by
  exact ⟨fun s => rfl, by decide, by decide, by decide, by decide⟩

theorem processBatch_filterMap (oracle : String → ContentOutcome) (batch : List TreeEntry) :
    (processBatch oracle batch).filterMap id
      = batch.filterMap (fun f => processFile f (oracle f.path)) := by
  unfold processBatch
  rw [List.filterMap_map]
  simp [Function.comp]

theorem fetchAll_step (oracle : String → ContentOutcome) (files : List TreeEntry)
    (h : files ≠ []) :
    fetchAll oracle files
      = (processBatch oracle (files.take BATCH_SIZE)).filterMap id
          ++ fetchAll oracle (files.drop BATCH_SIZE) := by
  have hn : files.length ≠ 0 := fun hh => h (List.length_eq_zero.mp hh)
  unfold fetchAll
  rw [List.length_drop]
  rw [show (files.length + (BATCH_SIZE - 1)) / BATCH_SIZE
      = ((files.length - BATCH_SIZE) + (BATCH_SIZE - 1)) / BATCH_SIZE + 1 by
    simp only [BATCH_SIZE]; omega]
  rw [List.range_succ_eq_map, List.flatMap_cons, List.flatMap_map]
  simp only [Nat.zero_mul, List.drop_zero]
  congr 1
  congr 1
  funext k
  rw [List.drop_drop, Nat.succ_mul, Nat.add_comm (k * BATCH_SIZE) BATCH_SIZE]

theorem fetchAll_eq_filterMap (oracle : String → ContentOutcome) (files : List TreeEntry) :
    fetchAll oracle files = files.filterMap (fun f => processFile f (oracle f.path)) := by
  generalize hn : files.length = n
  induction n using Nat.strong_induction_on generalizing files with
  | _ n ih =>
    cases files with
    | nil => rfl
    | cons f rest =>
      rw [fetchAll_step oracle (f :: rest) (by simp)]
      rw [processBatch_filterMap oracle]
      rw [ih ((f :: rest).drop BATCH_SIZE).length ?_ _ rfl]
      · rw [← List.filterMap_append, List.take_append_drop]
      · rw [← hn]
        simp only [List.length_drop, List.length_cons, BATCH_SIZE]
        omega

theorem processFile_path (f : TreeEntry) (o : ContentOutcome) (r : FileRecord)
    (h : processFile f o = some r) : r.path = f.path := by
  rcases o with _ | ⟨ok, st, enc, ct⟩
  · simp [processFile] at h
  · rcases ok
    · simp [processFile] at h
    · rcases enc with _ | e
      · simp [processFile] at h
      · rcases ct with _ | d
        · simp [processFile] at h
        · simp only [processFile, Bool.not_true, Bool.false_eq_true, if_false] at h
          by_cases he : e = "base64"
          · rw [if_pos he] at h
            by_cases hz : (d.toList.any (fun c => c = Char.ofNat 0)) = true
            · rw [if_pos hz] at h
              exact absurd h (by simp)
            · rw [if_neg hz] at h
              rw [← Option.some.inj h]
          · rw [if_neg he] at h
            exact absurd h (by simp)

theorem filterMap_paths_sublist (oracle : String → ContentOutcome) :
    ∀ files : List TreeEntry,
      ((files.filterMap (fun f => processFile f (oracle f.path))).map FileRecord.path).Sublist
        (files.map TreeEntry.path)
  | [] => List.Sublist.refl _
  | f :: rest => by
    rw [List.filterMap_cons]
    cases hpf : processFile f (oracle f.path) with
    | none =>
      simp only [List.map_cons]
      exact (filterMap_paths_sublist oracle rest).cons _
    | some r =>
      simp only [List.map_cons]
      have hp : r.path = f.path := processFile_path f _ r hpf
      rw [← hp]
      exact (filterMap_paths_sublist oracle rest).cons₂ _

theorem afterBranch_counts (env : Env) (p : RepoRef) (tb : String) (c : Nat)
    (r : ApiResponse) (n : Nat) (h : afterBranch env p tb c = (r, n))
    (hs : r.success = true) :
    r.truncatedFiles = some (r.totalFiles.getD 0 - r.fetchedFiles.getD 0) := by
  simp only [afterBranch] at h
  cases ht : env.treeResp with
  | error msg =>
    rw [ht] at h
    cases h
    simp [errResp] at hs
  | ok t =>
    rw [ht] at h
    dsimp only at h
    by_cases h1 : (!t.ok) = true
    · rw [if_pos h1] at h
      cases h
      simp [errResp] at hs
    · rw [if_neg h1] at h
      cases h
      simp [successResp]

theorem handle_success_counts (body : Except String ReqBody) (env : Env)
    (r : ApiResponse) (n : Nat) (h : handlePOST body env = (r, n))
    (hs : r.success = true) :
    r.truncatedFiles = some (r.totalFiles.getD 0 - r.fetchedFiles.getD 0) := by
  rcases body with msg | b
  · simp only [handlePOST] at h
    cases h
    simp [errResp] at hs
  · simp only [handlePOST] at h
    by_cases h1 : isFalsyOpt b.repoUrl = true
    · rw [if_pos h1] at h
      cases h
      simp [errResp] at hs
    · rw [if_neg h1] at h
      cases hp : parseGitHubUrl (b.repoUrl.getD "") with
      | none =>
        rw [hp] at h
        cases h
        simp [errResp] at hs
      | some p =>
        rw [hp] at h
        dsimp only at h
        by_cases h2 : isFalsyOpt (jsOrOpt b.branch p.branch) = true
        · rw [if_pos h2] at h
          cases hm : env.repoMeta with
          | error msg =>
            rw [hm] at h
            cases h
            simp [errResp] at hs
          | ok m =>
            rw [hm] at h
            dsimp only at h
            by_cases h3 : (!m.ok) = true
            · rw [if_pos h3] at h
              by_cases h4 : m.status = 404
              · rw [if_pos h4] at h
                cases h
                simp [errResp] at hs
              · rw [if_neg h4] at h
                cases h
                simp [errResp] at hs
            · rw [if_neg h3] at h
              exact afterBranch_counts env p _ _ r n h hs
        · rw [if_neg h2] at h
          exact afterBranch_counts env p _ _ r n h hs

/-- C5: every per-file content-fetch failure (thrown error, non-success
status, missing or non-`base64` encoding marker) yields `none` for that file
only; the batched fetch processes every selected file with no early abort
(it equals the per-file `filterMap` over the whole list) and returns possibly
fewer records; whenever the handler answers successfully, its truncated-file
count equals the total eligible count minus the number of returned records;
and on a 3-file group whose second fetch is a 404, the records are exactly
files 1 and 3 and the dropped count is 1. -/
theorem C5_per_file_drop :
    (∀ oracle files, fetchAll oracle files
        = files.filterMap (fun f => processFile f (oracle f.path))) ∧
    (∀ oracle files, (fetchAll oracle files).length ≤ files.length) ∧
    (∀ (f : TreeEntry) st enc ct, processFile f (.resp false st enc ct) = none) ∧
    (∀ f : TreeEntry, processFile f .thrown = none) ∧
    (∀ (f : TreeEntry) st ct, processFile f (.resp true st none ct) = none) ∧
    (∀ body env r n, handlePOST body env = (r, n) → r.success = true →
        r.truncatedFiles = some (r.totalFiles.getD 0 - r.fetchedFiles.getD 0)) ∧
    ((handlePOST (.ok ⟨some "o/r", some "main"⟩) envD).1.files
        = [⟨"f1.py", "x", 10, "Python"⟩, ⟨"f3.py", "x", 30, "Python"⟩] ∧
      (handlePOST (.ok ⟨some "o/r", some "main"⟩) envD).1.truncatedFiles = some 1 ∧
      (handlePOST (.ok ⟨some "o/r", some "main"⟩) envD).1.totalFiles = some 3) := by
  refine ⟨fetchAll_eq_filterMap, ?_, ?_, ?_, ?_, handle_success_counts, ?_⟩
  · intro oracle files
    rw [fetchAll_eq_filterMap]
    exact List.length_filterMap_le _ _
  · intro f st enc ct
    rfl
  · intro f
    rfl
  · intro f st ct
    rfl
  · exact ⟨by decide, by decide, by decide⟩

/-- Witness for C5: the count relation instantiated on the scenario
environment. -/
theorem C5_per_file_drop_witness :
    (handlePOST (.ok ⟨some "o/r", some "main"⟩) envD).1.truncatedFiles
      = some ((handlePOST (.ok ⟨some "o/r", some "main"⟩) envD).1.totalFiles.getD 0
          - (handlePOST (.ok ⟨some "o/r", some "main"⟩) envD).1.fetchedFiles.getD 0) :=
  C5_per_file_drop.2.2.2.2.2.1 (.ok ⟨some "o/r", some "main"⟩) envD _ _ rfl (by decide)

theorem runSched_length (f : Nat → Option FileRecord) :
    ∀ (sched : List Nat) (slots : List (Option FileRecord)),
      (runSched f slots sched).length = slots.length
  | [], _ => rfl
  | i :: rest, slots => by
    rw [runSched, runSched_length f rest]
    exact List.length_set slots i _

theorem runSched_getElem (f : Nat → Option FileRecord) :
    ∀ (sched : List Nat) (slots : List (Option FileRecord)) (j : Nat),
      (runSched f slots sched)[j]? =
        if j ∈ sched ∧ j < slots.length then some (f j) else slots[j]?
  | [], slots, j => by simp [runSched]
  | i :: rest, slots, j => by
    rw [runSched, runSched_getElem f rest (slots.set i (f i)) j, List.length_set]
    by_cases hj : j ∈ rest ∧ j < slots.length
    · rw [if_pos hj, if_pos ⟨List.mem_cons_of_mem i hj.1, hj.2⟩]
    · rw [if_neg hj]
      by_cases hji : j = i
      · subst hji
        by_cases hlen : j < slots.length
        · rw [if_pos ⟨List.mem_cons_self j rest, hlen⟩]
          exact List.getElem?_set_self hlen
        · rw [if_neg (fun hc => hlen hc.2)]
          have hle : slots.length ≤ j := Nat.le_of_not_lt hlen
          rw [List.getElem?_eq_none (by simpa using hle), List.getElem?_eq_none hle]
      · rw [List.getElem?_set_ne (fun hij => hji hij.symm)]
        rw [if_neg ?_]
        rintro ⟨hm, hl⟩
        rcases List.mem_cons.mp hm with rfl | hm
        · exact hji rfl
        · exact hj ⟨hm, hl⟩

theorem processBatchSched_eq (oracle : String → ContentOutcome) (batch : List TreeEntry)
    (sched : List Nat) (h : ∀ j < batch.length, j ∈ sched) :
    processBatchSched oracle batch sched = processBatch oracle batch := by
  apply List.ext_getElem?
  intro j
  unfold processBatchSched processBatch
  rw [runSched_getElem, List.length_replicate]
  by_cases hj : j < batch.length
  · rw [if_pos ⟨h j hj, hj⟩]
    rw [List.getElem?_map, List.getElem?_eq_getElem hj]
    simp [List.getElem?_eq_getElem hj]
  · rw [if_neg (fun hc => hj hc.2)]
    have hle : batch.length ≤ j := Nat.le_of_not_lt hj
    rw [List.getElem?_eq_none (by simpa using hle),
      List.getElem?_eq_none (by simpa using hle)]

theorem flatMap_congr_mem {α β : Type} (l : List α) (f g : α → List β)
    (h : ∀ a ∈ l, f a = g a) : l.flatMap f = l.flatMap g := by
  induction l with
  | nil => rfl
  | cons x xs ih =>
    rw [List.flatMap_cons, List.flatMap_cons, h x (List.mem_cons_self x xs),
      ih (fun a ha => h a (List.mem_cons_of_mem x ha))]

theorem fetchAllSched_eq (oracle : String → ContentOutcome) (files : List TreeEntry)
    (scheds : List (List Nat)) (h : validScheds files scheds = true) :
    fetchAllSched oracle files scheds = fetchAll oracle files := by
  unfold fetchAllSched fetchAll
  apply flatMap_congr_mem
  intro k hk
  rw [processBatchSched_eq]
  intro j hj
  unfold validScheds at h
  rw [List.all_eq_true] at h
  have h2 := h k hk
  rw [List.all_eq_true] at h2
  have h3 := h2 j (List.mem_range.mpr hj)
  simpa using h3

/-- C6: the record sequence is the order-preserving subsequence of the
selected set restricted to successful fetches — the batched fetch equals the
per-file `filterMap` in selection order, and the record paths form a sublist
of the selected paths — and it is independent of fetch completion order: under
any schedule in which every fetch of every batch eventually completes, the
slot-indexed result equals the batch-order result. -/
theorem C6_order_preserved :
    (∀ oracle files scheds, validScheds files scheds = true →
        fetchAllSched oracle files scheds = fetchAll oracle files) ∧
    (∀ oracle files, fetchAll oracle files
        = files.filterMap (fun f => processFile f (oracle f.path))) ∧
    (∀ oracle files,
        ((fetchAll oracle files).map FileRecord.path).Sublist
          (files.map TreeEntry.path)) := by
  refine ⟨fun oracle files scheds h => fetchAllSched_eq oracle files scheds h,
    fetchAll_eq_filterMap, ?_⟩
  intro oracle files
  rw [fetchAll_eq_filterMap]
  exact filterMap_paths_sublist oracle files

/-- Witness for C6: a two-file batch completing in reversed order yields the
same record sequence as completion in listing order. -/
theorem C6_order_preserved_witness :
    validScheds [(⟨"a.py", some 1, "blob"⟩ : TreeEntry), ⟨"b.py", some 2, "blob"⟩]
        [[1, 0]] = true ∧
      fetchAllSched (fun _ => .resp true 200 (some "base64") (some "x"))
          [⟨"a.py", some 1, "blob"⟩, ⟨"b.py", some 2, "blob"⟩] [[1, 0]]
        = fetchAll (fun _ => .resp true 200 (some "base64") (some "x"))
          [⟨"a.py", some 1, "blob"⟩, ⟨"b.py", some 2, "blob"⟩] :=
  ⟨by decide, C6_order_preserved.1 _ _ _ (by decide)⟩

/-- C7: for a successfully fetched base64 file, a record is emitted iff the
decoded text has no null byte (a null byte classifies the file binary and
drops it), and the emitted record's content is exactly the decoded text. -/
theorem C7_normalizer_roundtrip :
    (∀ (f : TreeEntry) st d, (d.toList.any (fun c => c = Char.ofNat 0)) = true →
        processFile f (.resp true st (some "base64") (some d)) = none) ∧
    (∀ (f : TreeEntry) st d, (d.toList.any (fun c => c = Char.ofNat 0)) = false →
        processFile f (.resp true st (some "base64") (some d))
          = some ⟨f.path, d, jsOrNat f.size d.toList.length, getLanguageFromPath f.path⟩) := by
  constructor
  · intro f st d hz
    have hz2 : Char.ofNat 0 ∈ d.data := by simpa using hz
    simp [processFile, hz2]
  · intro f st d hz
    have hz2 : Char.ofNat 0 ∉ d.data := by
      have hz3 := (by simpa using hz : ∀ x ∈ d.data, ¬x = Char.ofNat 0)
      intro hmem
      exact hz3 _ hmem rfl
    simp [processFile, hz2]

/-- Witness for C7: a two-byte text round-trips into its record unchanged. -/
theorem C7_normalizer_roundtrip_witness :
    processFile ⟨"a.py", some 5, "blob"⟩ (.resp true 200 (some "base64") (some "hi"))
      = some ⟨"a.py", "hi", 5, "Python"⟩ :=
  (C7_normalizer_roundtrip.2 ⟨"a.py", some 5, "blob"⟩ 200 "hi" (by decide)).trans (by decide)

/-- C10: an absent size counts as 0 throughout selection — it is minimal for
the sort order, passes the per-file check, and adds nothing to the running
total — and the emitted record's size falls back to the decoded length when
the tree size is absent or zero, keeping the tree size otherwise. -/
theorem C10_size_fallbacks :
    (∀ e : TreeEntry, e.size = none → sizeOrZero e = 0) ∧
    (∀ (e f : TreeEntry), e.size = none → sizeOrZero e ≤ sizeOrZero f) ∧
    (∀ mf mfs mts acc total (f : TreeEntry) rest, f.size = none → acc.length < mf →
        total ≤ mts →
        selectLoop mf mfs mts acc total (f :: rest)
          = selectLoop mf mfs mts (acc ++ [f]) total rest) ∧
    (∀ (f : TreeEntry) st d, processFile f (.resp true st (some "base64") (some d))
        = if (d.toList.any (fun c => c = Char.ofNat 0)) = true then none
          else some ⟨f.path, d, jsOrNat f.size d.toList.length, getLanguageFromPath f.path⟩) ∧
    (∀ fb, jsOrNat none fb = fb) ∧
    (∀ fb, jsOrNat (some 0) fb = fb) ∧
    (∀ n fb, n ≠ 0 → jsOrNat (some n) fb = n) ∧
    (sortBySize [⟨"a.py", some 5, "blob"⟩, ⟨"b.py", none, "blob"⟩]
      = [(⟨"b.py", none, "blob"⟩ : TreeEntry), ⟨"a.py", some 5, "blob"⟩]) := by
  refine ⟨?_, ?_, ?_, ?_, fun fb => rfl, fun fb => rfl, ?_, by decide⟩
  · intro e he
    simp [sizeOrZero, he]
  · intro e f he
    simp [sizeOrZero, he]
  · intro mf mfs mts acc total f rest hf hc ht
    have h0 : sizeOrZero f = 0 := by simp [sizeOrZero, hf]
    simp [selectLoop, Nat.not_le_of_lt hc, h0, Nat.not_lt_of_le ht]
  · intro f st d
    by_cases hz : (d.toList.any (fun c => c = Char.ofNat 0)) = true <;>
      simp [processFile, hz]
  · intro n fb hn
    simp [jsOrNat, hn]

/-- Witness for C10: a size-less entry is admitted without changing the
running total, and a nonzero tree size wins over the fallback. -/
theorem C10_size_fallbacks_witness :
    selectLoop 50 100000 500000 [] 0 [(⟨"b.py", none, "blob"⟩ : TreeEntry)]
        = selectLoop 50 100000 500000 ([] ++ [⟨"b.py", none, "blob"⟩]) 0 [] ∧
      jsOrNat (some 7) 3 = 7 :=
  ⟨C10_size_fallbacks.2.2.1 50 100000 500000 [] 0 ⟨"b.py", none, "blob"⟩ [] rfl
      (by decide) (by decide),
   C10_size_fallbacks.2.2.2.2.2.2.1 7 3 (by decide)⟩

/-- C4: the parser recognizes the bare shorthand, the full web URL and the
`/tree/<branch>`-suffixed URL, extracting owner and name case-preserving and a
branch only from the `/tree/` suffix; an explicitly supplied non-empty branch
argument takes precedence over a URL-embedded one in the route's
`requestedBranch || parsed.branch` resolution. -/
theorem C4_parser_forms :
    parseGitHubUrl "octocat/Hello-World" = some ⟨"octocat", "Hello-World", none⟩ ∧
    parseGitHubUrl "https://github.com/acme/widgets/tree/dev"
        = some ⟨"acme", "widgets", some "dev"⟩ ∧
    parseGitHubUrl "https://github.com/acme/widgets" = some ⟨"acme", "widgets", none⟩ ∧
    (∀ (b : String) (fb : Option String), b ≠ "" → jsOrOpt (some b) fb = some b) ∧
    (∀ fb : Option String, jsOrOpt none fb = fb) ∧
    (handlePOST (.ok ⟨some "https://github.com/acme/widgets/tree/dev", some "feat"⟩)
        envB).1.branch = some "feat" ∧
    (handlePOST (.ok ⟨some "https://github.com/acme/widgets/tree/dev", none⟩)
        envB).1.branch = some "dev" := by
  refine ⟨by decide, by decide, by decide, ?_, fun fb => rfl, by decide, by decide⟩
  intro b fb hb
  simp [jsOrOpt, hb]

/-- Witness for C4: the explicit branch `feat` wins over the embedded `dev`. -/
theorem C4_parser_forms_witness : jsOrOpt (some "feat") (some "dev") = some "feat" :=
  C4_parser_forms.2.2.2.1 "feat" (some "dev") (by decide)

theorem handlePOST_meta_not_ok (u : String) (p : RepoRef) (br : Option String)
    (m : MetaResp) (tr : Except String TreeResp) (oc : String → ContentOutcome)
    (hu : isFalsyOpt (some u) = false) (hp : parseGitHubUrl u = some p)
    (hb : isFalsyOpt (jsOrOpt br p.branch) = true) (hok : m.ok = false) :
    handlePOST (.ok ⟨some u, br⟩) ⟨.ok m, tr, oc⟩ =
      if m.status = 404
      then (errResp 404 ("Repository " ++ p.owner ++ "/" ++ p.repo
          ++ " not found. Make sure it exists and is public."), 1)
      else (errResp m.status ("GitHub API error: " ++ toString m.status ++ " "
          ++ m.statusText), 1) := by
  simp only [handlePOST]
  rw [hu]
  simp only [Option.getD_some, Bool.false_eq_true, if_false]
  rw [hp]
  dsimp only
  rw [hb, hok]
  simp

theorem handlePOST_meta_thrown (u : String) (p : RepoRef) (br : Option String)
    (msg : String) (tr : Except String TreeResp) (oc : String → ContentOutcome)
    (hu : isFalsyOpt (some u) = false) (hp : parseGitHubUrl u = some p)
    (hb : isFalsyOpt (jsOrOpt br p.branch) = true) :
    handlePOST (.ok ⟨some u, br⟩) ⟨.error msg, tr, oc⟩ = (errResp 500 msg, 1) := by
  simp only [handlePOST]
  rw [hu]
  simp only [Option.getD_some, Bool.false_eq_true, if_false]
  rw [hp]
  dsimp only
  rw [hb]
  simp

theorem handlePOST_tree_not_ok (u : String) (p : RepoRef) (brs : Option String)
    (mr : Except String MetaResp) (t : TreeResp) (oc : String → ContentOutcome)
    (hu : isFalsyOpt (some u) = false) (hp : parseGitHubUrl u = some p)
    (hbr : isFalsyOpt (jsOrOpt brs p.branch) = false) (hok : t.ok = false) :
    handlePOST (.ok ⟨some u, brs⟩) ⟨mr, .ok t, oc⟩
      = (errResp t.status ("Failed to fetch repo tree: " ++ toString t.status
          ++ " " ++ t.statusText), 1) := by
  simp only [handlePOST, afterBranch]
  rw [hu]
  simp only [Option.getD_some, Bool.false_eq_true, if_false]
  rw [hp]
  dsimp only
  rw [hbr, hok]
  simp

/-- C8: terminal failures map to HTTP-style statuses by category — a
malformed or missing locator answers 400 with zero network calls, a metadata
404 answers 404, any other metadata non-success status is passed through, a
tree-lookup non-success status (404 included) is passed through, and a thrown
exception answers 500; every such terminal failure is `success: false` with an
error message and zero files. -/
theorem C8_status_codes :
    (∀ env, handlePOST (.ok ⟨some "not a url", none⟩) env
        = (errResp 400 "Invalid GitHub URL. Use format: https://github.com/owner/repo or owner/repo", 0)) ∧
    (∀ env br, handlePOST (.ok ⟨none, br⟩) env = (errResp 400 "repoUrl is required", 0)) ∧
    (∀ env br, handlePOST (.ok ⟨some "", br⟩) env = (errResp 400 "repoUrl is required", 0)) ∧
    (∀ msg env, handlePOST (.error msg) env = (errResp 500 msg, 0)) ∧
    (∀ m tr oc, m.ok = false → m.status = 404 →
        handlePOST (.ok ⟨some "octocat/Hello-World", none⟩) ⟨.ok m, tr, oc⟩
          = (errResp 404 "Repository octocat/Hello-World not found. Make sure it exists and is public.", 1)) ∧
    (∀ m tr oc, m.ok = false → m.status ≠ 404 →
        (handlePOST (.ok ⟨some "octocat/Hello-World", none⟩) ⟨.ok m, tr, oc⟩).1.status
          = m.status) ∧
    (∀ t mr oc, t.ok = false →
        (handlePOST (.ok ⟨some "octocat/Hello-World", some "main"⟩) ⟨mr, .ok t, oc⟩).1.status
          = t.status) ∧
    (∀ msg tr oc, handlePOST (.ok ⟨some "octocat/Hello-World", none⟩) ⟨.error msg, tr, oc⟩
        = (errResp 500 msg, 1)) ∧
    (∀ s m, (errResp s m).success = false ∧ (errResp s m).files = []
        ∧ (errResp s m).error = some m ∧ (errResp s m).status = s) := by
  refine ⟨fun env => rfl, fun env br => rfl, fun env br => rfl, fun msg env => rfl,
    ?_, ?_, ?_, ?_, fun s m => ⟨rfl, rfl, rfl, rfl⟩⟩
  · intro m tr oc hok h404
    rw [handlePOST_meta_not_ok "octocat/Hello-World" ⟨"octocat", "Hello-World", none⟩
      none m tr oc rfl (by decide) rfl hok]
    rw [if_pos h404]
    decide
  · intro m tr oc hok h404
    rw [handlePOST_meta_not_ok "octocat/Hello-World" ⟨"octocat", "Hello-World", none⟩
      none m tr oc rfl (by decide) rfl hok]
    rw [if_neg h404]
    rfl
  · intro t mr oc hok
    rw [handlePOST_tree_not_ok "octocat/Hello-World" ⟨"octocat", "Hello-World", none⟩
      (some "main") mr t oc rfl (by decide) rfl hok]
    rfl
  · intro msg tr oc
    exact handlePOST_meta_thrown "octocat/Hello-World" ⟨"octocat", "Hello-World", none⟩
      none msg tr oc rfl (by decide) rfl

/-- Witness for C8: the metadata 404, the metadata 500 passthrough and the
tree 403 passthrough at concrete environments. -/
theorem C8_status_codes_witness :
    handlePOST (.ok ⟨some "octocat/Hello-World", none⟩)
        ⟨.ok ⟨false, 404, "Not Found", none⟩, .error "t", fun _ => .thrown⟩
      = (errResp 404 "Repository octocat/Hello-World not found. Make sure it exists and is public.", 1) ∧
    (handlePOST (.ok ⟨some "octocat/Hello-World", none⟩)
        ⟨.ok ⟨false, 500, "ISE", none⟩, .error "t", fun _ => .thrown⟩).1.status = 500 ∧
    (handlePOST (.ok ⟨some "octocat/Hello-World", some "main"⟩)
        ⟨.error "m", .ok ⟨false, 403, "Forbidden", none⟩, fun _ => .thrown⟩).1.status = 403 :=
  ⟨C8_status_codes.2.2.2.2.1 ⟨false, 404, "Not Found", none⟩ (.error "t") (fun _ => .thrown)
      rfl rfl,
   C8_status_codes.2.2.2.2.2.1 ⟨false, 500, "ISE", none⟩ (.error "t") (fun _ => .thrown)
      rfl (by decide),
   C8_status_codes.2.2.2.2.2.2.1 ⟨false, 403, "Forbidden", none⟩ (.error "m")
      (fun _ => .thrown) rfl⟩
